import Mathlib

set_option maxRecDepth 100000

/-!
Verification of the clause extractor of the Tender-Automation application
(src/docs/app.py, function `extract_clauses_from_text`).

The extractor works on plain text: it splits the input into lines
(Python `str.splitlines`), trims each line (Python `str.strip`), skips
blank lines, and scans the remaining lines with the anchored regular
expression `^(\d+(?:\.\d+)*)\s+(.*)$` (compiled at app.py line 178).
A matching line emits the currently open clause (if any) and opens a new
one; a non-matching line is appended to the open clause with a single
space separator, or dropped when no clause is open; a clause still open
at the end is emitted last.

Text is modelled as `List Char`.  Python's whitespace set (used both by
`str.strip` and by `\s` of an `re` pattern on `str`) and the line-break
set of `str.splitlines` are modelled by the explicit code-point sets
below.  Python's `\d` matches Unicode decimal digits; the model uses the
ASCII digits 0-9 — every theorem below depends only on the facts that
digits, the dot and whitespace are pairwise disjoint character classes,
so this restriction affects no statement.
-/

/-- Python whitespace (the characters for which `str.isspace()` holds and
which `\s` matches): TAB, LF, VT, FF, CR (9-13), FS, GS, RS, US (28-31),
space (32), NEL (0x85), NBSP (0xa0), OGHAM SPACE (0x1680), the EN QUAD..
HAIR SPACE block (0x2000-0x200a), LINE/PARAGRAPH SEPARATOR (0x2028/0x2029),
NARROW NBSP (0x202f), MEDIUM MATHEMATICAL SPACE (0x205f) and IDEOGRAPHIC
SPACE (0x3000). -/
def isPySpace (c : Char) : Bool :=
  let n := c.toNat
  (9 ≤ n && n ≤ 13) || (28 ≤ n && n ≤ 31) || n == 32 ||
  n == 0x85 || n == 0xa0 || n == 0x1680 || (0x2000 ≤ n && n ≤ 0x200a) ||
  n == 0x2028 || n == 0x2029 || n == 0x202f || n == 0x205f || n == 0x3000

/-- ASCII decimal digit 0-9, the model of `\d` (see the header comment). -/
def isPyDigit (c : Char) : Bool :=
  let n := c.toNat
  48 ≤ n && n ≤ 57

/-- The line boundaries recognised by Python `str.splitlines`: LF, VT, FF,
CR (10-13), FS, GS, RS (28-30), NEL (0x85) and LINE/PARAGRAPH SEPARATOR
(0x2028/0x2029).  The pair CR LF is handled separately in
`pySplitlinesAux`. -/
def isLineBreak (c : Char) : Bool :=
  let n := c.toNat
  (10 ≤ n && n ≤ 13) || (28 ≤ n && n ≤ 30) ||
  n == 0x85 || n == 0x2028 || n == 0x2029

/-- Worker for `pySplitlines`; `acc` holds the current line reversed.
As in Python, a trailing line terminator does not produce a final empty
line. -/
def pySplitlinesAux : List Char → List Char → List (List Char)
  | [], acc => if acc.isEmpty then [] else [acc.reverse]
  | c :: rest, acc =>
    if isLineBreak c then
      if c = '\r' then
        match rest with
        | [] => [acc.reverse]
        | d :: rest2 =>
          if d = '\n' then acc.reverse :: pySplitlinesAux rest2 []
          else acc.reverse :: pySplitlinesAux (d :: rest2) []
      else acc.reverse :: pySplitlinesAux rest []
    else pySplitlinesAux rest (c :: acc)

/-- Python `str.splitlines` (app.py line 177: `raw_text.splitlines()`). -/
def pySplitlines (s : List Char) : List (List Char) :=
  pySplitlinesAux s []

/-- Remove the trailing run of Python whitespace. -/
def pyRstrip : List Char → List Char
  | [] => []
  | c :: t =>
    let r := pyRstrip t
    if r.isEmpty && isPySpace c then [] else c :: r

/-- Python `str.strip()` (app.py line 177: `line.strip()`): remove the
leading and the trailing run of Python whitespace. -/
def pyStrip (s : List Char) : List Char :=
  pyRstrip (s.dropWhile isPySpace)

/-- Worker matching the regex fragment `(?:\.\d+)*` greedily: consume
dot-introduced digit groups (a leading digit continues the group under
construction).  Returns the consumed characters and the rest. -/
def dotGroups : List Char → List Char × List Char
  | [] => ([], [])
  | c :: rest =>
    if isPyDigit c then
      (c :: (dotGroups rest).1, (dotGroups rest).2)
    else if c = '.' then
      match rest with
      | [] => ([], ['.'])
      | d :: rest2 =>
        if isPyDigit d then
          ('.' :: d :: (dotGroups rest2).1, (dotGroups rest2).2)
        else ([], '.' :: d :: rest2)
    else ([], c :: rest)

/-- Match the regex fragment `(\d+(?:\.\d+)*)` at the start of the line:
one or more digits, then dot-separated digit groups.  Returns group 1 and
the rest of the line, or `none` if the line does not start with a digit. -/
def matchLabel (s : List Char) : Option (List Char × List Char) :=
  if (s.takeWhile isPyDigit).isEmpty then none
  else
    some (s.takeWhile isPyDigit ++ (dotGroups (s.dropWhile isPyDigit)).1,
          (dotGroups (s.dropWhile isPyDigit)).2)

/-- The compiled pattern `clause_pattern = re.compile(r'^(\d+(?:\.\d+)*)\s+(.*)$')`
applied with `.match` to a line (app.py lines 178 and 187): on success,
group 1 (the label) and group 2 (everything after the whitespace run).
Greedy matching needs no backtracking here: every shorter candidate for
group 1 is followed by a digit, or by a dot followed by a digit, never by
the whitespace `\s+` requires, so the maximal-munch parse below realises
exactly the regex semantics.  A line produced by `splitlines` contains no
newline, so `.*` and `$` capture the whole remainder. -/
def clause_pattern_match (line : List Char) : Option (List Char × List Char) :=
  match matchLabel line with
  | none => none
  | some (label, rest) =>
    if (rest.takeWhile isPySpace).isEmpty then none
    else some (label, rest.dropWhile isPySpace)

/-- A clause record, `{"clause_no": ..., "clause_text": ...}` in the source
(app.py lines 195-198). -/
structure Clause where
  clause_no : List Char
  clause_text : List Char
deriving Repr, DecidableEq

/-- One iteration of the `for line in lines` loop (app.py lines 183-202),
acting on the state (emitted clauses, current clause). -/
def processLine (st : List Clause × Option Clause) (line : List Char) :
    List Clause × Option Clause :=
  if line.isEmpty then st
  else
    match clause_pattern_match line with
    | some (no, txt) =>
      let clauses' :=
        match st.2 with
        | some c => st.1 ++ [c]
        | none => st.1
      (clauses', some ⟨no, pyStrip txt⟩)
    | none =>
      match st.2 with
      | some c => (st.1, some ⟨c.clause_no, c.clause_text ++ ' ' :: line⟩)
      | none => st

/-- Final step (app.py lines 205-206): append the last clause if present. -/
def finishClauses : List Clause × Option Clause → List Clause
  | (cs, some c) => cs ++ [c]
  | (cs, none) => cs

/-- Run the scanning loop over an (already trimmed) list of lines. -/
def runLines (lines : List (List Char)) : List Clause :=
  finishClauses (lines.foldl processLine ([], none))

/-- `extract_clauses_from_text` (app.py lines 169-208): split into lines,
trim each line, scan, emit. -/
def extract_clauses_from_text (raw_text : List Char) : List Clause :=
  runLines ((pySplitlines raw_text).map pyStrip)

/-- A string with no leading and no trailing Python whitespace. -/
def stripped (s : List Char) : Prop :=
  pyStrip s = s

example : extract_clauses_from_text ("3.1 Scope of work\nThe contractor shall supply terminals.\n3.2 Delivery\nWithin 30 days.").toList =
    [⟨"3.1".toList, "Scope of work The contractor shall supply terminals.".toList⟩,
     ⟨"3.2".toList, "Delivery Within 30 days.".toList⟩] := by decide

example : extract_clauses_from_text ("5.1 Final clause\n6.0").toList =
    [⟨"5.1".toList, "Final clause 6.0".toList⟩] := by decide

example : extract_clauses_from_text ("Random preamble text\n4.2.1 Sub-clause detail\nMore detail here.").toList =
    [⟨"4.2.1".toList, "Sub-clause detail More detail here.".toList⟩] := by decide

example : extract_clauses_from_text "".toList = [] := by decide

example : extract_clauses_from_text ("  \n \t\n").toList = [] := by decide

/-! ### Character-class and generic list lemmas -/

theorem not_space_of_digit {c : Char} (h : isPyDigit c = true) : isPySpace c = false := by
  unfold isPyDigit at h
  rw [← Bool.not_eq_true]
  unfold isPySpace
  simp only [Bool.and_eq_true, decide_eq_true_eq] at h
  simp only [Bool.or_eq_true, Bool.and_eq_true, decide_eq_true_eq, beq_iff_eq]
  omega

theorem not_space_dot : isPySpace '.' = false := by decide

theorem mem_dropWhile_of_not {p : Char → Bool} {c : Char} (hc : p c = false) :
    ∀ {s : List Char}, c ∈ s → c ∈ s.dropWhile p := by
  intro s hs
  induction s with
  | nil => cases hs
  | cons a t ih =>
    by_cases ha : p a = true
    · rw [List.dropWhile_cons_of_pos ha]
      rcases List.mem_cons.mp hs with h | h
      · subst h; rw [hc] at ha; cases ha
      · exact ih h
    · rw [List.dropWhile_cons_of_neg ha]; exact hs

theorem head?_dropWhile_not (p : Char → Bool) :
    ∀ (s : List Char) (c : Char), (s.dropWhile p).head? = some c → p c = false := by
  intro s
  induction s with
  | nil => intro c h; cases h
  | cons a t ih =>
    intro c h
    by_cases ha : p a = true
    · rw [List.dropWhile_cons_of_pos ha] at h; exact ih c h
    · rw [List.dropWhile_cons_of_neg ha] at h
      simp only [List.head?_cons, Option.some.injEq] at h
      subst h
      exact Bool.eq_false_iff.mpr ha

theorem dropWhile_eq_nil_of_all {p : Char → Bool} :
    ∀ {s : List Char}, (∀ c ∈ s, p c = true) → s.dropWhile p = [] := by
  intro s hs
  induction s with
  | nil => rfl
  | cons a t ih =>
    rw [List.dropWhile_cons_of_pos (hs a (List.mem_cons_self a t))]
    exact ih fun c hc => hs c (List.mem_cons_of_mem a hc)

theorem mem_takeWhile_sat {p : Char → Bool} :
    ∀ {s : List Char} {c : Char}, c ∈ s.takeWhile p → p c = true := by
  intro s
  induction s with
  | nil => intro c h; cases h
  | cons a t ih =>
    intro c h
    by_cases ha : p a = true
    · rw [List.takeWhile_cons_of_pos ha] at h
      rcases List.mem_cons.mp h with h' | h'
      · subst h'; exact ha
      · exact ih h'
    · rw [List.takeWhile_cons_of_neg ha] at h; cases h

/-! ### Lemmas about `pyRstrip`, `pyStrip` and `stripped` -/

theorem pyRstrip_cons (c : Char) (t : List Char) :
    pyRstrip (c :: t) =
      if ((pyRstrip t).isEmpty && isPySpace c) = true then [] else c :: pyRstrip t := rfl

theorem pyRstrip_length_le : ∀ s : List Char, (pyRstrip s).length ≤ s.length := by
  intro s
  induction s with
  | nil => simp [pyRstrip]
  | cons c t ih =>
    rw [pyRstrip_cons]
    split
    · simp
    · simpa using Nat.succ_le_succ ih

theorem pyRstrip_getLast :
    ∀ s : List Char, pyRstrip s ≠ [] →
      ∃ c, (pyRstrip s).getLast? = some c ∧ isPySpace c = false := by
  intro s
  induction s with
  | nil => intro h; exact absurd rfl h
  | cons a t ih =>
    intro h
    rw [pyRstrip_cons] at h ⊢
    by_cases hc : ((pyRstrip t).isEmpty && isPySpace a) = true
    · rw [if_pos hc] at h; exact absurd rfl h
    · rw [if_neg hc] at h ⊢
      by_cases hnil : pyRstrip t = []
      · have hsp : isPySpace a = false := by
          by_contra hx
          rw [Bool.not_eq_false] at hx
          exact hc (by rw [hnil, hx]; rfl)
        exact ⟨a, by rw [hnil]; rfl, hsp⟩
      · obtain ⟨c, hgl, hcs⟩ := ih hnil
        refine ⟨c, ?_, hcs⟩
        obtain ⟨d, u, hdu⟩ : ∃ d u, pyRstrip t = d :: u := by
          cases hh : pyRstrip t with
          | nil => exact absurd hh hnil
          | cons d u => exact ⟨d, u, rfl⟩
        rw [hdu, List.getLast?_cons_cons]
        rw [hdu] at hgl
        exact hgl

theorem pyRstrip_eq_self :
    ∀ (s : List Char) (c : Char), s.getLast? = some c → isPySpace c = false →
      pyRstrip s = s := by
  intro s
  induction s with
  | nil => intro c h; cases h
  | cons a t ih =>
    intro c hl hc
    rw [pyRstrip_cons]
    cases t with
    | nil =>
      have ha : a = c := by simpa using hl
      subst ha
      rw [if_neg (by rw [hc]; simp)]
      rfl
    | cons b u =>
      rw [List.getLast?_cons_cons] at hl
      have ht : pyRstrip (b :: u) = b :: u := ih c hl hc
      rw [if_neg (by rw [ht]; simp)]
      rw [ht]

theorem pyRstrip_ne_nil :
    ∀ (s : List Char) (c : Char), c ∈ s → isPySpace c = false → pyRstrip s ≠ [] := by
  intro s
  induction s with
  | nil => intro c h; cases h
  | cons a t ih =>
    intro c hm hc
    rw [pyRstrip_cons]
    rcases List.mem_cons.mp hm with h | h
    · subst h
      rw [if_neg]
      · simp
      · rw [hc]; simp
    · have ht := ih c h hc
      rw [if_neg]
      · simp
      · have : (pyRstrip t).isEmpty = false := List.isEmpty_eq_false.mpr ht
        rw [this]; simp

theorem pyRstrip_head? :
    ∀ s : List Char, pyRstrip s ≠ [] → (pyRstrip s).head? = s.head? := by
  intro s h
  cases s with
  | nil => exact absurd rfl h
  | cons a t =>
    rw [pyRstrip_cons] at h ⊢
    by_cases hc : ((pyRstrip t).isEmpty && isPySpace a) = true
    · rw [if_pos hc] at h; exact absurd rfl h
    · rw [if_neg hc]; rfl

theorem stripped_nil : stripped ([] : List Char) := rfl

theorem stripped_head {s : List Char} {c : Char} (hs : stripped s) (hh : s.head? = some c) :
    isPySpace c = false := by
  cases s with
  | nil => cases hh
  | cons a t =>
    have ha : a = c := by simpa using hh
    subst ha
    by_contra hsp
    rw [Bool.not_eq_false] at hsp
    have h1 : ((a :: t).dropWhile isPySpace).length ≤ t.length := by
      rw [List.dropWhile_cons_of_pos hsp]
      exact (List.dropWhile_sublist isPySpace).length_le
    have h2 : (pyStrip (a :: t)).length ≤ t.length :=
      le_trans (pyRstrip_length_le _) h1
    rw [hs] at h2
    simp only [List.length_cons] at h2
    omega

theorem stripped_getLast {s : List Char} {c : Char} (hs : stripped s) (hl : s.getLast? = some c) :
    isPySpace c = false := by
  have hne : s ≠ [] := by intro h; subst h; cases hl
  have h1 : pyStrip s ≠ [] := by rw [hs]; exact hne
  obtain ⟨d, hd, hdsp⟩ := pyRstrip_getLast (s.dropWhile isPySpace) h1
  have hd' : s.getLast? = some d := by rw [← hs]; exact hd
  rw [hl] at hd'
  injection hd' with hd'
  subst hd'
  exact hdsp

theorem stripped_of_ends {s : List Char} {c d : Char}
    (hh : s.head? = some c) (hcs : isPySpace c = false)
    (hl : s.getLast? = some d) (hds : isPySpace d = false) : stripped s := by
  cases s with
  | nil => cases hh
  | cons a t =>
    have ha : a = c := by simpa using hh
    subst ha
    unfold stripped pyStrip
    rw [List.dropWhile_cons_of_neg (by simp [hcs])]
    exact pyRstrip_eq_self (a :: t) d hl hds

theorem stripped_pyStrip (s : List Char) : stripped (pyStrip s) := by
  by_cases h : pyStrip s = []
  · rw [h]; exact stripped_nil
  · obtain ⟨d, hd, hds⟩ := pyRstrip_getLast (s.dropWhile isPySpace) h
    cases hc : (pyStrip s).head? with
    | none => exact absurd (List.head?_eq_none_iff.mp hc) h
    | some c =>
      have hh : (pyStrip s).head? = (s.dropWhile isPySpace).head? := pyRstrip_head? _ h
      have hcs : isPySpace c = false :=
        head?_dropWhile_not isPySpace s c (by rw [← hh]; exact hc)
      exact stripped_of_ends hc hcs hd hds

theorem stripped_append {a b : List Char} (ha : stripped a) (hna : a ≠ [])
    (hb : stripped b) (hnb : b ≠ []) : stripped (a ++ ' ' :: b) := by
  obtain ⟨c, hc⟩ : ∃ c, a.head? = some c := by
    cases a with
    | nil => exact absurd rfl hna
    | cons x t => exact ⟨x, rfl⟩
  obtain ⟨d, hd⟩ : ∃ d, b.getLast? = some d := by
    cases hbb : b.getLast? with
    | none => exact absurd (List.getLast?_eq_none_iff.mp hbb) hnb
    | some d => exact ⟨d, rfl⟩
  apply stripped_of_ends (c := c) (d := d)
  · rw [List.head?_append, hc]; rfl
  · exact stripped_head ha hc
  · rw [List.getLast?_append]
    have hsb : (' ' :: b).getLast? = some d := by
      cases b with
      | nil => exact absurd rfl hnb
      | cons y u => rw [List.getLast?_cons_cons]; exact hd
    rw [hsb]; rfl
  · exact stripped_getLast hb hd

theorem pyStrip_ne_nil (s : List Char) (c : Char) (hm : c ∈ s) (hc : isPySpace c = false) :
    pyStrip s ≠ [] :=
  pyRstrip_ne_nil (s.dropWhile isPySpace) c (mem_dropWhile_of_not hc hm) hc

theorem pyStrip_allspace {s : List Char} (h : ∀ c ∈ s, isPySpace c = true) :
    pyStrip s = [] := by
  unfold pyStrip
  rw [dropWhile_eq_nil_of_all h]
  rfl

/-! ### Decomposition of the label match -/

theorem clause_pattern_match_nil : clause_pattern_match [] = none := rfl

theorem dotGroups_append : ∀ s : List Char, (dotGroups s).1 ++ (dotGroups s).2 = s := by
  intro s
  induction s using dotGroups.induct with
  | case1 => rfl
  | case2 c t h ih =>
    rw [dotGroups.eq_def]
    simp [h, ih]
  | case3 h =>
    rw [dotGroups.eq_def]
    simp [h]
  | case4 c t h hdot ih =>
    rw [dotGroups.eq_def]
    simp [h, hdot, ih]
  | case5 c t h hdot =>
    rw [dotGroups.eq_def]
    simp [h, hdot]
  | case6 c t h hne =>
    rw [dotGroups.eq_def]
    simp [h, hne]

theorem matchLabel_decomp {s no r : List Char} (h : matchLabel s = some (no, r)) :
    s = no ++ r ∧ no ≠ [] := by
  unfold matchLabel at h
  by_cases he : (s.takeWhile isPyDigit).isEmpty = true
  · rw [if_pos he] at h; cases h
  · rw [if_neg he] at h
    simp only [Option.some.injEq, Prod.mk.injEq] at h
    obtain ⟨h1, h2⟩ := h
    subst h1; subst h2
    constructor
    · rw [List.append_assoc, dotGroups_append, List.takeWhile_append_dropWhile]
    · intro hcon
      rw [List.append_eq_nil] at hcon
      exact he (by rw [hcon.1]; rfl)

theorem clause_pattern_match_decomp {line no txt : List Char}
    (h : clause_pattern_match line = some (no, txt)) :
    ∃ sp, line = no ++ sp ++ txt ∧ sp ≠ [] ∧ (∀ c ∈ sp, isPySpace c = true) ∧ no ≠ [] := by
  unfold clause_pattern_match at h
  cases hm : matchLabel line with
  | none => rw [hm] at h; cases h
  | some pr =>
    obtain ⟨label, rest⟩ := pr
    rw [hm] at h
    simp only at h
    by_cases he : (rest.takeWhile isPySpace).isEmpty = true
    · rw [if_pos he] at h; cases h
    · rw [if_neg he] at h
      simp only [Option.some.injEq, Prod.mk.injEq] at h
      obtain ⟨h1, h2⟩ := h
      subst h1; subst h2
      obtain ⟨hdec, hne⟩ := matchLabel_decomp hm
      refine ⟨rest.takeWhile isPySpace, ?_, ?_, ?_, hne⟩
      · rw [hdec, List.append_assoc, List.takeWhile_append_dropWhile]
      · intro hcon
        exact he (by rw [hcon]; rfl)
      · intro c hc
        exact mem_takeWhile_sat hc

/-! ### Step lemmas for the scanning loop -/

theorem processLine_blank (st : List Clause × Option Clause) : processLine st [] = st := rfl

theorem processLine_match (cs : List Clause) (cur : Option Clause) (line no txt : List Char)
    (hne : line ≠ []) (hm : clause_pattern_match line = some (no, txt)) :
    processLine (cs, cur) line = (cs ++ cur.toList, some ⟨no, pyStrip txt⟩) := by
  have hje : line.isEmpty = false := List.isEmpty_eq_false.mpr hne
  cases cur with
  | none => simp [processLine, hje, hm]
  | some c => simp [processLine, hje, hm]

theorem processLine_nomatch_open (cs : List Clause) (c : Clause) (line : List Char)
    (hne : line ≠ []) (hm : clause_pattern_match line = none) :
    processLine (cs, some c) line =
      (cs, some ⟨c.clause_no, c.clause_text ++ ' ' :: line⟩) := by
  have hje : line.isEmpty = false := List.isEmpty_eq_false.mpr hne
  simp [processLine, hje, hm]

theorem processLine_nomatch_closed (cs : List Clause) (line : List Char)
    (hm : clause_pattern_match line = none) :
    processLine (cs, none) line = (cs, none) := by
  by_cases hje : line.isEmpty = true
  · simp [processLine, hje]
  · simp [processLine, hje, hm]

/-- Characterisation of the emitted clause numbers: the scan emits, in
order, one clause per line the pattern matches, labelled by group 1. -/
theorem finish_foldl_clause_no :
    ∀ (lines : List (List Char)) (cs : List Clause) (cur : Option Clause),
      (finishClauses (lines.foldl processLine (cs, cur))).map Clause.clause_no =
        cs.map Clause.clause_no ++ cur.toList.map Clause.clause_no ++
          lines.filterMap (fun l => (clause_pattern_match l).map Prod.fst) := by
  intro lines
  induction lines with
  | nil =>
    intro cs cur
    cases cur with
    | none => simp [finishClauses]
    | some c => simp [finishClauses]
  | cons line rest ih =>
    intro cs cur
    rw [List.foldl_cons, List.filterMap_cons]
    by_cases hne : line = []
    · subst hne
      rw [processLine_blank, clause_pattern_match_nil]
      simp only [Option.map_none']
      exact ih cs cur
    · cases hm : clause_pattern_match line with
      | some pr =>
        obtain ⟨no, txt⟩ := pr
        rw [processLine_match cs cur line no txt hne hm, ih]
        simp [List.map_append]
      | none =>
        cases cur with
        | none =>
          rw [processLine_nomatch_closed cs line hm, ih]
          simp
        | some c =>
          rw [processLine_nomatch_open cs c line hne hm, ih]
          simp

/-- A matching trimmed line always leaves a non-empty clause text: the
trimmed remainder after the label and the whitespace run ends with the
line's last character, which is not whitespace. -/
theorem newText_ne_nil {line no txt : List Char} (hne : line ≠ []) (hs : stripped line)
    (hm : clause_pattern_match line = some (no, txt)) : pyStrip txt ≠ [] := by
  obtain ⟨sp, hdec, hspne, hspall, _⟩ := clause_pattern_match_decomp hm
  by_cases htxt : txt = []
  · subst htxt
    rw [List.append_nil] at hdec
    obtain ⟨d, hd⟩ : ∃ d, sp.getLast? = some d := by
      cases hh : sp.getLast? with
      | none => exact absurd (List.getLast?_eq_none_iff.mp hh) hspne
      | some d => exact ⟨d, rfl⟩
    have hdl : line.getLast? = some d := by
      rw [hdec, List.getLast?_append, hd]; rfl
    have hns := stripped_getLast hs hdl
    have hin := List.mem_of_getLast?_eq_some hd
    rw [hspall d hin] at hns
    cases hns
  · obtain ⟨d, hd⟩ : ∃ d, txt.getLast? = some d := by
      cases hh : txt.getLast? with
      | none => exact absurd (List.getLast?_eq_none_iff.mp hh) htxt
      | some d => exact ⟨d, rfl⟩
    have hdl : line.getLast? = some d := by
      rw [hdec, List.append_assoc, List.getLast?_append, List.getLast?_append, hd]; rfl
    have hns := stripped_getLast hs hdl
    exact pyStrip_ne_nil txt d (List.mem_of_getLast?_eq_some hd) hns

/-- Invariant of the scanning loop over trimmed lines: every clause it has
emitted, and the open clause, carries a non-empty, fully trimmed text. -/
theorem finish_foldl_goodText :
    ∀ (lines : List (List Char)) (cs : List Clause) (cur : Option Clause),
      (∀ l ∈ lines, stripped l) →
      (∀ cl ∈ cs, cl.clause_text ≠ [] ∧ stripped cl.clause_text) →
      (∀ cl, cur = some cl → cl.clause_text ≠ [] ∧ stripped cl.clause_text) →
      ∀ cl ∈ finishClauses (lines.foldl processLine (cs, cur)),
        cl.clause_text ≠ [] ∧ stripped cl.clause_text := by
  intro lines
  induction lines with
  | nil =>
    intro cs cur _ hcs hcur cl hmem
    cases cur with
    | none => exact hcs cl hmem
    | some c =>
      rcases List.mem_append.mp hmem with h | h
      · exact hcs cl h
      · rw [List.mem_singleton] at h
        subst h
        exact hcur cl rfl
  | cons line rest ih =>
    intro cs cur hlines hcs hcur
    have hline : stripped line := hlines line (List.mem_cons_self line rest)
    have hrest : ∀ l ∈ rest, stripped l := fun l hl => hlines l (List.mem_cons_of_mem line hl)
    rw [List.foldl_cons]
    by_cases hne : line = []
    · subst hne
      rw [processLine_blank]
      exact ih cs cur hrest hcs hcur
    · cases hm : clause_pattern_match line with
      | some pr =>
        obtain ⟨no, txt⟩ := pr
        rw [processLine_match cs cur line no txt hne hm]
        apply ih _ _ hrest
        · intro cl hmem
          rcases List.mem_append.mp hmem with h | h
          · exact hcs cl h
          · cases cur with
            | none => cases h
            | some c =>
              rw [Option.toList_some, List.mem_singleton] at h
              subst h
              exact hcur cl rfl
        · intro cl hcl
          injection hcl with hcl
          subst hcl
          exact ⟨newText_ne_nil hne hline hm, stripped_pyStrip txt⟩
      | none =>
        cases cur with
        | none =>
          rw [processLine_nomatch_closed cs line hm]
          exact ih cs none hrest hcs hcur
        | some c =>
          rw [processLine_nomatch_open cs c line hne hm]
          apply ih _ _ hrest hcs
          intro cl hcl
          injection hcl with hcl
          subst hcl
          obtain ⟨hn, hs⟩ := hcur c rfl
          refine ⟨by simp, stripped_append hs hn hline hne⟩

/-! ### Lemmas about `pySplitlines` and `runLines` -/


/-! ### Lemmas about `pySplitlines` and `runLines` -/

/-- Every character of every line produced by the splitter comes from the
input (or from the accumulator). -/
theorem pySplitlinesAux_sub :
    ∀ (s acc : List Char) (l : List Char), l ∈ pySplitlinesAux s acc →
      ∀ c ∈ l, c ∈ s ∨ c ∈ acc := by
  intro s acc
  induction s, acc using pySplitlinesAux.induct with
  | case1 acc he =>
    intro l hl c hc
    rw [pySplitlinesAux.eq_def] at hl
    simp only [if_pos he] at hl
    cases hl
  | case2 acc he =>
    intro l hl c hc
    rw [pySplitlinesAux.eq_def] at hl
    simp only [if_neg he, List.mem_singleton] at hl
    subst hl
    exact Or.inr (List.mem_reverse.mp hc)
  | case3 acc hbr =>
    intro l hl c hc
    rw [pySplitlinesAux.eq_def] at hl
    simp only [hbr, if_true, if_pos rfl, List.mem_singleton] at hl
    subst hl
    exact Or.inr (List.mem_reverse.mp hc)
  | case4 acc rest2 hbr ih =>
    intro l hl c hc
    rw [pySplitlinesAux.eq_def] at hl
    simp only [hbr, if_true, if_pos rfl, List.mem_cons] at hl
    rcases hl with h | h
    · subst h
      exact Or.inr (List.mem_reverse.mp hc)
    · rcases ih l h c hc with h2 | h2
      · exact Or.inl (List.mem_cons_of_mem _ (List.mem_cons_of_mem _ h2))
      · cases h2
  | case5 acc d rest2 hd hbr ih =>
    intro l hl c hc
    rw [pySplitlinesAux.eq_def] at hl
    simp only [hbr, if_true, if_pos rfl, hd, if_false, List.mem_cons] at hl
    rcases hl with h | h
    · subst h
      exact Or.inr (List.mem_reverse.mp hc)
    · rcases ih l h c hc with h2 | h2
      · exact Or.inl (List.mem_cons_of_mem _ h2)
      · cases h2
  | case6 c0 rest acc hbr hnr ih =>
    intro l hl c hc
    rw [pySplitlinesAux.eq_def] at hl
    simp only [hbr, if_true, hnr, if_false, List.mem_cons] at hl
    rcases hl with h | h
    · subst h
      exact Or.inr (List.mem_reverse.mp hc)
    · rcases ih l h c hc with h2 | h2
      · exact Or.inl (List.mem_cons_of_mem _ h2)
      · cases h2
  | case7 c0 rest acc hnb ih =>
    intro l hl c hc
    rw [pySplitlinesAux.eq_def] at hl
    simp only [hnb, if_false] at hl
    rcases ih l hl c hc with h2 | h2
    · exact Or.inl (List.mem_cons_of_mem _ h2)
    · rcases List.mem_cons.mp h2 with h3 | h3
      · subst h3
        exact Or.inl (List.mem_cons_self c rest)
      · exact Or.inr h3

theorem pySplitlines_space {s : List Char} (hs : ∀ c ∈ s, isPySpace c = true) :
    ∀ l ∈ pySplitlines s, ∀ c ∈ l, isPySpace c = true := by
  intro l hl c hc
  rcases pySplitlinesAux_sub s [] l hl c hc with h | h
  · exact hs c h
  · cases h

theorem foldl_processLine_blank :
    ∀ (lines : List (List Char)) (st : List Clause × Option Clause),
      (∀ l ∈ lines, l = []) → lines.foldl processLine st = st := by
  intro lines
  induction lines with
  | nil => intro st _; rfl
  | cons a t ih =>
    intro st h
    rw [List.foldl_cons, h a (List.mem_cons_self a t), processLine_blank]
    exact ih st fun l hl => h l (List.mem_cons_of_mem a hl)

theorem runLines_blank (lines : List (List Char)) (h : ∀ l ∈ lines, l = []) :
    runLines lines = [] := by
  unfold runLines
  rw [foldl_processLine_blank lines ([], none) h]
  rfl

theorem runLines_cons_nomatch (line : List Char) (lines : List (List Char))
    (hm : clause_pattern_match line = none) :
    runLines (line :: lines) = runLines lines := by
  have h : processLine ([], none) line = ([], none) := by
    by_cases hne : line = []
    · subst hne; exact processLine_blank _
    · exact processLine_nomatch_closed [] line hm
  unfold runLines
  rw [List.foldl_cons, h]

theorem length_filterMap_eq_countP {α β : Type} (f : α → Option β) :
    ∀ l : List α, (l.filterMap f).length = l.countP fun a => (f a).isSome := by
  intro l
  induction l with
  | nil => rfl
  | cons a t ih =>
    rw [List.filterMap_cons, List.countP_cons]
    cases hf : f a with
    | none => simp [hf, ih]
    | some b => simp [hf, ih]

theorem extract_clause_no (raw : List Char) :
    (extract_clauses_from_text raw).map Clause.clause_no =
      ((pySplitlines raw).map pyStrip).filterMap
        fun l => (clause_pattern_match l).map Prod.fst := by
  have h := finish_foldl_clause_no ((pySplitlines raw).map pyStrip) [] none
  unfold extract_clauses_from_text runLines
  simpa using h

theorem countP_ext {α : Type} (p q : α → Bool) (h : ∀ a, p a = q a) :
    ∀ l : List α, l.countP p = l.countP q := by
  intro l
  induction l with
  | nil => rfl
  | cons a t ih => rw [List.countP_cons, List.countP_cons, h a, ih]

theorem extract_length_isSome (raw : List Char) :
    (extract_clauses_from_text raw).length =
      (pySplitlines raw).countP fun l => (clause_pattern_match (pyStrip l)).isSome := by
  have h1 : (extract_clauses_from_text raw).length
      = ((extract_clauses_from_text raw).map Clause.clause_no).length := by
    rw [List.length_map]
  rw [h1, extract_clause_no, length_filterMap_eq_countP, List.countP_map]
  apply countP_ext
  intro a
  simp only [Function.comp_apply]
  cases hm : clause_pattern_match (pyStrip a) with
  | none => rfl
  | some pr => rfl

theorem isSome_eq_nonblank_and (l : List Char) :
    (clause_pattern_match (pyStrip l)).isSome =
      (!(pyStrip l).isEmpty && (clause_pattern_match (pyStrip l)).isSome) := by
  cases hp : pyStrip l with
  | nil => rw [clause_pattern_match_nil]; rfl
  | cons a t => simp

/-! ### The claims -/

/-- C1: a non-blank trimmed line that matches the clause pattern first
emits the currently open clause, if any, and then opens a new current
clause whose number is the matched label and whose text is the trimmed
remainder; after the loop a still-open clause is emitted as the final
element; and on Scenario 1 the extractor returns exactly the two expected
clauses. -/
theorem C1_match_emits_then_opens :
    (∀ (cs : List Clause) (cur : Option Clause) (line no txt : List Char),
        line ≠ [] → clause_pattern_match line = some (no, txt) →
        processLine (cs, cur) line = (cs ++ cur.toList, some ⟨no, pyStrip txt⟩)) ∧
    (∀ (cs : List Clause) (c : Clause), finishClauses (cs, some c) = cs ++ [c]) ∧
    extract_clauses_from_text
        ("3.1 Scope of work\nThe contractor shall supply terminals.\n3.2 Delivery\nWithin 30 days.").toList =
      [⟨"3.1".toList, "Scope of work The contractor shall supply terminals.".toList⟩,
       ⟨"3.2".toList, "Delivery Within 30 days.".toList⟩] := by
  refine ⟨?_, ?_, ?_⟩
  · intro cs cur line no txt hne hm
    exact processLine_match cs cur line no txt hne hm
  · intro cs c
    rfl
  · decide

/-- Witness for C1 at a concrete state and line. -/
theorem C1_match_emits_then_opens_witness :
    processLine ([Clause.mk "1".toList "a".toList], some (Clause.mk "2".toList "b".toList))
        "3 c".toList =
      ([Clause.mk "1".toList "a".toList] ++ (some (Clause.mk "2".toList "b".toList)).toList,
       some ⟨"3".toList, pyStrip "c".toList⟩) :=
  C1_match_emits_then_opens.1 _ _ _ _ _ (by decide) (by decide)

/-- C2: a non-blank line that fails the pattern is appended, after a
single space, to the open clause's text; with no open clause the state is
unchanged, and a leading non-matching line leaves the whole run's output
unchanged (the line's text reaches no emitted clause). -/
theorem C2_nomatch_appends_or_drops :
    (∀ (cs : List Clause) (c : Clause) (line : List Char),
        line ≠ [] → clause_pattern_match line = none →
        processLine (cs, some c) line =
          (cs, some ⟨c.clause_no, c.clause_text ++ ' ' :: line⟩)) ∧
    (∀ (cs : List Clause) (line : List Char),
        clause_pattern_match line = none →
        processLine (cs, none) line = (cs, none)) ∧
    (∀ (line : List Char) (lines : List (List Char)),
        clause_pattern_match line = none →
        runLines (line :: lines) = runLines lines) :=
  ⟨processLine_nomatch_open, processLine_nomatch_closed, runLines_cons_nomatch⟩

/-- Witness for C2 at a concrete clause, line and run. -/
theorem C2_nomatch_appends_or_drops_witness :
    processLine ([], some (Clause.mk "1".toList "a".toList)) "junk".toList =
      ([], some ⟨"1".toList, "a".toList ++ ' ' :: "junk".toList⟩) ∧
    processLine ([], none) "junk".toList = ([], none) ∧
    runLines ["junk".toList, "1 a".toList] = runLines ["1 a".toList] :=
  ⟨C2_nomatch_appends_or_drops.1 [] _ _ (by decide) (by decide),
   C2_nomatch_appends_or_drops.2.1 [] _ (by decide),
   C2_nomatch_appends_or_drops.2.2 _ _ (by decide)⟩

/-- C3: a line made only of digits and dots (no whitespace followed by
text) never matches the clause pattern, hence never starts a clause; and
Scenario 4 yields a single clause with the bare number appended as
continuation text. -/
theorem C3_bare_number_never_matches :
    (∀ s : List Char, s ≠ [] → (∀ c ∈ s, isPyDigit c = true ∨ c = '.') →
        clause_pattern_match s = none) ∧
    extract_clauses_from_text ("5.1 Final clause\n6.0").toList =
      [⟨"5.1".toList, "Final clause 6.0".toList⟩] := by
  constructor
  · intro s hne hall
    cases hm : clause_pattern_match s with
    | none => rfl
    | some pr =>
      exfalso
      obtain ⟨no, txt⟩ := pr
      obtain ⟨sp, hdec, hspne, hspall, _⟩ := clause_pattern_match_decomp hm
      obtain ⟨d, u, hdu⟩ : ∃ d u, sp = d :: u := by
        cases sp with
        | nil => exact absurd rfl hspne
        | cons d u => exact ⟨d, u, rfl⟩
      have hd_sp : isPySpace d = true := hspall d (by rw [hdu]; exact List.mem_cons_self d u)
      have hd_in : d ∈ s := by
        rw [hdec, hdu]
        exact List.mem_append_left txt (List.mem_append_right no (List.mem_cons_self d u))
      rcases hall d hd_in with hdig | hdot
      · rw [not_space_of_digit hdig] at hd_sp
        cases hd_sp
      · subst hdot
        rw [not_space_dot] at hd_sp
        cases hd_sp
  · decide

/-- Witness for C3 at the bare number of Scenario 4. -/
theorem C3_bare_number_never_matches_witness :
    clause_pattern_match "6.0".toList = none :=
  C3_bare_number_never_matches.1 "6.0".toList (by decide) (by decide)

/-- C4: an input that is empty or consists of whitespace only yields the
empty clause list. -/
theorem C4_blank_input_yields_empty :
    ∀ raw : List Char, (∀ c ∈ raw, isPySpace c = true) →
      extract_clauses_from_text raw = [] := by
  intro raw h
  unfold extract_clauses_from_text
  apply runLines_blank
  intro l hl
  rw [List.mem_map] at hl
  obtain ⟨l0, hl0, rfl⟩ := hl
  exact pyStrip_allspace (pySplitlines_space h l0 hl0)

/-- Witness for C4 on the empty input and a whitespace-only input. -/
theorem C4_blank_input_yields_empty_witness :
    extract_clauses_from_text [] = [] ∧
    extract_clauses_from_text ("  \n \t\n ").toList = [] :=
  ⟨C4_blank_input_yields_empty [] (by decide),
   C4_blank_input_yields_empty _ (by decide)⟩

/-- C5: a whitespace-only line is skipped: inserting (or removing) such a
line at any position of the input's line sequence leaves the extractor's
result unchanged. -/
theorem C5_blank_lines_transparent :
    ∀ (raw1 raw2 : List Char) (pre post : List (List Char)) (w : List Char),
      (∀ c ∈ w, isPySpace c = true) →
      pySplitlines raw1 = pre ++ post →
      pySplitlines raw2 = pre ++ w :: post →
      extract_clauses_from_text raw1 = extract_clauses_from_text raw2 := by
  intro raw1 raw2 pre post w hw h1 h2
  unfold extract_clauses_from_text runLines
  rw [h1, h2, List.map_append, List.map_append, List.map_cons,
    List.foldl_append, List.foldl_append, List.foldl_cons,
    pyStrip_allspace hw, processLine_blank]

/-- Witness for C5: inserting the line " " between two clause lines. -/
theorem C5_blank_lines_transparent_witness :
    extract_clauses_from_text ("1 a\n2 b").toList =
      extract_clauses_from_text ("1 a\n \n2 b").toList :=
  C5_blank_lines_transparent _ _ ["1 a".toList] ["2 b".toList] " ".toList
    (by decide) (by decide) (by decide)

/-- C6: the extractor is total — every input produces a clause list, no
error value exists — and the empty result is exactly the "no clauses
found" condition: it occurs precisely when no trimmed line matches the
pattern. -/
theorem C6_total_empty_iff_no_match :
    (∀ raw : List Char, ∃ cs : List Clause, extract_clauses_from_text raw = cs) ∧
    (∀ raw : List Char, extract_clauses_from_text raw = [] ↔
        ∀ l ∈ pySplitlines raw, clause_pattern_match (pyStrip l) = none) := by
  constructor
  · intro raw
    exact ⟨_, rfl⟩
  · intro raw
    constructor
    · intro h l hl
      have h0 : (extract_clauses_from_text raw).length = 0 := by rw [h]; rfl
      rw [extract_length_isSome] at h0
      have := List.countP_eq_zero.mp h0 l hl
      simpa [Option.not_isSome_iff_eq_none] using this
    · intro h
      have h0 : ((pySplitlines raw).countP
          fun l => (clause_pattern_match (pyStrip l)).isSome) = 0 :=
        List.countP_eq_zero.mpr fun l hl => by simp [h l hl]
      have hlen := extract_length_isSome raw
      rw [h0] at hlen
      exact List.length_eq_zero.mp hlen

/-- Witness for C6: a label-free input gives the empty list. -/
theorem C6_total_empty_iff_no_match_witness :
    extract_clauses_from_text "no clauses in this text".toList = [] :=
  (C6_total_empty_iff_no_match.2 _).mpr (by decide)

/-- C7: the extractor is deterministic — it is a pure function of its
input text, so equal inputs give structurally equal outputs. -/
theorem C7_deterministic :
    ∀ raw1 raw2 : List Char, raw1 = raw2 →
      extract_clauses_from_text raw1 = extract_clauses_from_text raw2 := by
  intro raw1 raw2 h
  rw [h]

/-- Witness for C7 at a concrete input. -/
theorem C7_deterministic_witness :
    extract_clauses_from_text "3.1 x".toList = extract_clauses_from_text "3.1 x".toList :=
  C7_deterministic _ _ rfl

/-- C8: the emitted clause numbers are, in input order, exactly the
matched labels of the matching lines — no deduplication, reordering or
numbering validation; in particular "3.14" then "3.2" gives two clauses
in that order, and a repeated label gives two separate entries. -/
theorem C8_order_preserved_no_dedup :
    (∀ raw : List Char,
        (extract_clauses_from_text raw).map Clause.clause_no =
          ((pySplitlines raw).map pyStrip).filterMap
            fun l => (clause_pattern_match l).map Prod.fst) ∧
    extract_clauses_from_text ("3.14 first\n3.2 second").toList =
      [⟨"3.14".toList, "first".toList⟩, ⟨"3.2".toList, "second".toList⟩] ∧
    extract_clauses_from_text ("2.1 once\n2.1 twice").toList =
      [⟨"2.1".toList, "once".toList⟩, ⟨"2.1".toList, "twice".toList⟩] :=
  ⟨extract_clause_no, by decide, by decide⟩

/-- C9: every emitted clause has a non-empty clause text with no leading
or trailing whitespace (trimming is the identity on it). -/
theorem C9_clause_text_nonempty_trimmed :
    ∀ (raw : List Char) (cl : Clause), cl ∈ extract_clauses_from_text raw →
      cl.clause_text ≠ [] ∧ pyStrip cl.clause_text = cl.clause_text := by
  intro raw cl hmem
  refine finish_foldl_goodText ((pySplitlines raw).map pyStrip) [] none ?_ ?_ ?_ cl hmem
  · intro l hl
    rw [List.mem_map] at hl
    obtain ⟨l0, _, rfl⟩ := hl
    exact stripped_pyStrip l0
  · intro c hc
    cases hc
  · intro c hc
    cases hc

/-- Witness for C9 at a concrete input and its single clause. -/
theorem C9_clause_text_nonempty_trimmed_witness :
    (Clause.mk "1".toList "a".toList).clause_text ≠ [] ∧
    pyStrip (Clause.mk "1".toList "a".toList).clause_text =
      (Clause.mk "1".toList "a".toList).clause_text :=
  C9_clause_text_nonempty_trimmed "1 a".toList (Clause.mk "1".toList "a".toList) (by decide)

/-- C10: the number of emitted clauses equals the number of input lines
that are non-blank after trimming and match the clause pattern. -/
theorem C10_clause_count :
    ∀ raw : List Char,
      (extract_clauses_from_text raw).length =
        (pySplitlines raw).countP
          fun l => !(pyStrip l).isEmpty && (clause_pattern_match (pyStrip l)).isSome := by
  intro raw
  rw [extract_length_isSome]
  exact countP_ext _ _ isSome_eq_nonblank_and _
